import Mathlib

/-!
Verification development for the SC_Binary repository (src/script.py).

The script downloads prebuilt executables (ffmpeg, bento4, megatools) for a
fixed platform and architecture matrix, unpacks them and records the installed
relative paths in a JSON manifest.  The definitions below are a shallow
embedding of the functions of src/script.py; line numbers in the doc comments
point into that file.
-/

namespace SCBinary

/-- Configuration URL, src/script.py line 12. -/
def FFMPEG_URL : String := "https://github.com/eugeneware/ffmpeg-static/releases/download/b6.1.1"

/-- Configuration URL, src/script.py line 13. -/
def BENTO4_URL : String := "https://www.bok.net/Bento4/binaries"

/-- Configuration URL, src/script.py line 14. -/
def MEGATOOLS_URL : String := "https://megatools.megous.com/builds/builds"

/-- Pinned version string, src/script.py line 16. -/
def BENTO4_VERSION : String := "1-6-0-641"

/-- Pinned version string, src/script.py line 17. -/
def MEGATOOLS_VERSION : String := "1.11.3.20250401"

/-- Lookup in a Python dict modelled as an insertion-ordered association list. -/
def alistLookup {α : Type} : List (String × α) → String → Option α
  | [], _ => none
  | (k, v) :: rest, key => if k = key then some v else alistLookup rest key

/-- Assignment d[key] = v on a Python dict modelled as an insertion-ordered
association list: replace in place when the key is present, append otherwise. -/
def alistSet {α : Type} : List (String × α) → String → α → List (String × α)
  | [], key, v => [(key, v)]
  | (k, w) :: rest, key, v =>
    if k = key then (key, v) :: rest else (k, w) :: alistSet rest key v

/-- The manifest self.paths_json, src/script.py line 23: a dict from composite
string keys to lists of relative path strings, in insertion order. -/
abbrev Manifest := List (String × List String)

/-- Python str.endswith (src/script.py line 153), over the character lists of
the strings so that it evaluates inside the kernel. -/
def strEndsWith (s post : String) : Bool :=
  post.data.isSuffixOf s.data

/-- The composite manifest key built at src/script.py line 59. -/
def mkKey (platform arch tool : String) : String :=
  platform ++ "_" ++ arch ++ "_" ++ tool

/-- The relative path built at src/script.py line 63. -/
def mkRel (platform arch tool binary : String) : String :=
  platform ++ "/" ++ arch ++ "/" ++ tool ++ "/" ++ binary

/-- The method _add_path, src/script.py lines 58-65: ensure the key exists,
then append the relative path unless it is already present. -/
def addPath (m : Manifest) (platform arch tool binary : String) : Manifest :=
  let key := mkKey platform arch tool
  let m1 := if (alistLookup m key).isSome then m else alistSet m key []
  let relPath := mkRel platform arch tool binary
  let cur := (alistLookup m1 key).getD []
  if relPath ∈ cur then m1 else alistSet m1 key (cur ++ [relPath])

/-- The list stored in the manifest under a key (empty when the key is absent). -/
def getPaths (m : Manifest) (key : String) : List String :=
  (alistLookup m key).getD []

/-- The platform matrix self.platforms, src/script.py lines 29-33. -/
def platformsDict : List (String × List String) :=
  [("windows", ["x64"]), ("darwin", ["x64", "arm64"]), ("linux", ["x64", "arm64"])]

/-- The (platform, arch) cells visited, in order, by every per-tool double loop
(for platform_name, arches in self.platforms.items(): for arch in arches). -/
def matrixCells : List (String × String) :=
  platformsDict.foldl (fun acc pr => acc ++ pr.2.map (fun a => (pr.1, a))) []

/-- Two-level dict lookup d[platform].get(arch) as used by the per-tool
resolvers (src/script.py lines 81, 134, 191). -/
def dict2Get {α : Type} (d : List (String × List (String × α))) (platform arch : String) :
    Option α :=
  (alistLookup d platform).bind (fun inner => alistLookup inner arch)

/-- The dict ffmpeg_map, src/script.py lines 71-75. -/
def ffmpegMap : List (String × List (String × String)) :=
  [("windows", [("x64", "win32-x64")]),
   ("darwin", [("x64", "darwin-x64"), ("arm64", "darwin-arm64")]),
   ("linux", [("x64", "linux-x64"), ("arm64", "linux-arm64")])]

/-- The dict platform_config of download_bento4, src/script.py lines 118-122. -/
def bento4Config : List (String × List (String × String)) :=
  [("windows", [("x64", "x86_64-microsoft-win32")]),
   ("darwin", [("x64", "universal-apple-macosx"), ("arm64", "universal-apple-macosx")]),
   ("linux", [("x64", "x86_64-unknown-linux"), ("arm64", "x86_64-unknown-linux")])]

/-- The dict executables of download_bento4, src/script.py lines 124-128. -/
def bento4ExecutablesDict : List (String × List String) :=
  [("windows", ["mp4decrypt.exe", "mp4encrypt.exe", "mp4info.exe", "mp4dump.exe"]),
   ("darwin", ["mp4decrypt", "mp4encrypt", "mp4info", "mp4dump"]),
   ("linux", ["mp4decrypt", "mp4encrypt", "mp4info", "mp4dump"])]

/-- executables[platform_name] at src/script.py line 152 (the key is always
present for the platforms of the matrix). -/
def bento4Execs (platform : String) : List String :=
  (alistLookup bento4ExecutablesDict platform).getD []

/-- The dict config of download_megatools, src/script.py lines 181-185: a
target resolves to (platform_str, extension, executable). -/
def megaConfig : List (String × List (String × (String × String × String))) :=
  [("windows", [("x64", ("win64", ".zip", "megatools.exe"))]),
   ("darwin", [("x64", ("linux-x86_64", ".tar.gz", "megatools")),
               ("arm64", ("linux-aarch64", ".tar.gz", "megatools"))]),
   ("linux", [("x64", ("linux-x86_64", ".tar.gz", "megatools")),
              ("arm64", ("linux-aarch64", ".tar.gz", "megatools"))])]

/-- The bento4 download URL for a target, src/script.py line 139. -/
def bento4Url (platform arch : String) : Option String :=
  (dict2Get bento4Config platform arch).map
    (fun s => BENTO4_URL ++ "/Bento4-SDK-" ++ BENTO4_VERSION ++ "." ++ s ++ ".zip")

/-- The megatools download URL for a target, src/script.py line 196. -/
def megaUrl (platform arch : String) : Option String :=
  (dict2Get megaConfig platform arch).map
    (fun c => MEGATOOLS_URL ++ "/megatools-" ++ MEGATOOLS_VERSION ++ "-" ++ c.1 ++ c.2.1)

/-! ### The fetcher _download, src/script.py lines 44-56

The whole body sits in a try block whose except clause catches every failure
kind (connection error, timeout, HTTP error status, filesystem error) and
turns it into the return value False plus one printed diagnostic line.  The
external collaborators are modelled by a world record: getResult is none when
session.get itself raises (connection error or timeout) and some s when a
response with status code s comes back; writeOk tells whether opening and
streaming to the destination file succeeds. -/

/-- Observable inputs of one _download call. -/
structure DlWorld where
  getResult : Option Nat
  writeOk : Bool

/-- Observable outputs of one _download call.  destOpened records whether
open(dest, wb) was reached, i.e. whether the destination file was created or
truncated. -/
structure DlResult where
  ok : Bool
  diags : List String
  destOpened : Bool

/-- The diagnostic print at src/script.py line 55. -/
def diagLine (url msg : String) : String :=
  "  X " ++ (((url.splitOn "/").getLast?).getD "") ++ ": " ++ (msg.take 50)

/-- response.raise_for_status() of the requests library (called at
src/script.py line 47): raises an HTTPError exactly for status codes 400-599
(client and server error responses), and returns normally for every other
status, including the 1xx, 2xx and 3xx ranges. -/
def raiseForStatus (s : Nat) : Except String Unit :=
  if 400 ≤ s ∧ s < 600 then Except.error ("HTTP error " ++ toString s) else Except.ok ()

/-- The method _download, src/script.py lines 44-56.  Total by construction:
every failure of a step is converted into ok := false plus one diagnostic. -/
def dlDownload (url : String) (w : DlWorld) : DlResult :=
  match w.getResult with
  | none => { ok := false, diags := [diagLine url "connection error or timeout"], destOpened := false }
  | some s =>
    match raiseForStatus s with
    | Except.error e => { ok := false, diags := [diagLine url e], destOpened := false }
    | Except.ok _ =>
      if w.writeOk then { ok := true, diags := [], destOpened := true }
      else { ok := false, diags := [diagLine url "write error"], destOpened := true }

/-- Second definition for the refinement comparison of the fetch result,
following the amended spec wording: the fetch reports success exactly when the
get call returns a response, the status code is not in the 4xx or 5xx error
ranges, and the destination file is written without error. -/
def dlSpecOk (w : DlWorld) : Bool :=
  match w.getResult with
  | none => false
  | some s => (!(decide (400 ≤ s ∧ s < 600))) && w.writeOk

/-- Second definition for the refinement comparison of the destination file
effect, following the amended spec wording: the destination file is opened
exactly when a response came back whose status is outside the 4xx and 5xx
error ranges. -/
def dlSpecOpened (w : DlWorld) : Bool :=
  match w.getResult with
  | none => false
  | some s => !(decide (400 ≤ s ∧ s < 600))

/-! ### Per-tool cell processing (manifest and success count level)

Each download_* method loops over the matrix cells; per cell it downloads one
artifact, unpacks it and records installed executables via _add_path.  The
interactions with the network and the archives are modelled per cell by an
outcome record; moves of extracted files are modelled as succeeding (POSIX
rename replaces an existing destination file). -/

/-- Outcome of the work for one ffmpeg executable in one cell: whether the
download at src/script.py line 97 returns True, and whether the gzip
decompression, unlink and chmod block at lines 98-109 runs without raising. -/
structure FfmpegOutcome where
  downloadOk : Bool
  extractOk : Bool

/-- The extension picked at src/script.py line 94. -/
def ffmpegExt (platform : String) : String :=
  if platform = "windows" then ".exe" else ""

/-- One cell of download_ffmpeg, src/script.py lines 79-113: skip when the
target has no mapping, otherwise process the two executables in order and
return the updated manifest, the success counter, and the printed summary. -/
def ffmpegCell (oc : String → FfmpegOutcome) (platform arch : String) (m : Manifest) :
    Manifest × Nat × String :=
  match dict2Get ffmpegMap platform arch with
  | none => (m, 0, "skip")
  | some _ =>
    let r := ["ffmpeg", "ffprobe"].foldl (fun acc exe =>
      let o := oc exe
      if o.downloadOk && o.extractOk then
        (addPath acc.1 platform arch "ffmpeg" (exe ++ ffmpegExt platform), acc.2 + 1)
      else acc) (m, 0)
    (r.1, r.2, toString r.2 ++ "/2")

/-- Outcome of the work for one bento4 cell: whether _download at
src/script.py line 144 returns True, and the zip entry names iterated by the
loop at line 151.  When opening the zip raises, entries is the empty list;
when an extraction step raises mid way, entries is the portion of the file
list processed before the exception (the except clause at line 173 catches it
and the successes recorded so far stand). -/
structure Bento4Outcome where
  downloadOk : Bool
  entries : List String

/-- The body of the entry loop of download_bento4, src/script.py lines
152-170: for one zip entry, every expected executable name that the entry name
ends with leads to an extract, move, chmod and _add_path, and increments the
success counter. -/
def bento4EntryStep (platform arch : String) (acc : Manifest × Nat) (entry : String) :
    Manifest × Nat :=
  (bento4Execs platform).foldl (fun acc2 exe =>
    if strEndsWith entry exe then
      (addPath acc2.1 platform arch "bento4" exe, acc2.2 + 1)
    else acc2) acc

/-- One cell of download_bento4, src/script.py lines 132-176. -/
def bento4Cell (o : Bento4Outcome) (platform arch : String) (m : Manifest) :
    Manifest × Nat × String :=
  match dict2Get bento4Config platform arch with
  | none => (m, 0, "skip")
  | some _ =>
    if o.downloadOk then
      let r := o.entries.foldl (bento4EntryStep platform arch) (m, 0)
      (r.1, r.2, toString r.2 ++ "/4")
    else (m, 0, "0/4")

/-- Second definition for the refinement comparison of the bento4 zip success
count, following the amended spec wording: every (entry, expected name) pair
where the entry path ends with the name counts as one extraction, so the total
is the sum, over the entries, of the number of expected names each entry
matches. -/
def specZipMatchCount (platform : String) (entries : List String) : Nat :=
  (entries.map (fun e => ((bento4Execs platform).filter (fun x => strEndsWith e x)).length)).sum

/-- Outcome of the work for one megatools cell: whether _download at
src/script.py line 201 returns True, whether the archive extraction into the
temp directory (lines 206-215) runs without raising, and whether the walk at
lines 217-228 finds the expected executable and installs it without raising. -/
structure MegaOutcome where
  downloadOk : Bool
  extractOk : Bool
  found : Bool

/-- One cell of download_megatools, src/script.py lines 189-235. -/
def megaCell (o : MegaOutcome) (platform arch : String) (m : Manifest) :
    Manifest × Nat × String :=
  match dict2Get megaConfig platform arch with
  | none => (m, 0, "skip")
  | some c =>
    if o.downloadOk then
      if o.extractOk && o.found then
        (addPath m platform arch "megatools" c.2.2, 1, "1/1")
      else (m, 0, "0/1")
    else (m, 0, "0/1")

/-- External outcomes for a whole run, one record per (tool, cell) unit. -/
structure Env where
  ffmpegOc : String → String → String → FfmpegOutcome
  bento4Oc : String → String → Bento4Outcome
  megaOc : String → String → MegaOutcome

/-- Observable state threaded through the run: the manifest, the printed
summary lines, and the (tool, platform, arch) cells visited. -/
structure RunState where
  manifest : Manifest
  lines : List String
  attempted : List (String × String × String)

/-- State at the start of run(), src/script.py line 23: empty manifest. -/
def initState : RunState :=
  { manifest := [], lines := [], attempted := [] }

/-- The double loop shared by the three download_* methods, src/script.py
lines 77-78, 130-131 and 187-188: visit every matrix cell in order and feed
the manifest through the per-cell body. -/
def runTool (tool : String) (cell : String → String → Manifest → Manifest × Nat × String)
    (st : RunState) : RunState :=
  matrixCells.foldl (fun s pr =>
    let r := cell pr.1 pr.2 s.manifest
    { manifest := r.1, lines := s.lines ++ [r.2.2],
      attempted := s.attempted ++ [(tool, pr.1, pr.2)] }) st

/-- The method run, src/script.py lines 243-252: the three tools in sequence
over the full matrix, with no early exit. -/
def run (env : Env) : RunState :=
  let s1 := runTool "ffmpeg" (fun p a => ffmpegCell (env.ffmpegOc p a) p a) initState
  let s2 := runTool "bento4" (fun p a => bento4Cell (env.bento4Oc p a) p a) s1
  runTool "megatools" (fun p a => megaCell (env.megaOc p a) p a) s2

/-- save_paths_json, src/script.py lines 237-241: json.dump writes the dict as
is, so the serialized mapping is the manifest itself (keys in insertion
order). -/
def savePathsJson (st : RunState) : List (String × List String) :=
  st.manifest

/-- The cells the run visits: all five matrix cells for each of the three
tools, in program order. -/
def attemptedAll : List (String × String × String) :=
  [("ffmpeg", "windows", "x64"), ("ffmpeg", "darwin", "x64"), ("ffmpeg", "darwin", "arm64"),
   ("ffmpeg", "linux", "x64"), ("ffmpeg", "linux", "arm64"),
   ("bento4", "windows", "x64"), ("bento4", "darwin", "x64"), ("bento4", "darwin", "arm64"),
   ("bento4", "linux", "x64"), ("bento4", "linux", "arm64"),
   ("megatools", "windows", "x64"), ("megatools", "darwin", "x64"), ("megatools", "darwin", "arm64"),
   ("megatools", "linux", "x64"), ("megatools", "linux", "arm64")]

/-- An environment where every fetch and every extraction of every cell
succeeds; the bento4 archives carry one entry per expected name under the SDK
bin directory. -/
def envAll : Env :=
  { ffmpegOc := fun _ _ _ => ⟨true, true⟩,
    bento4Oc := fun p _ =>
      ⟨true, (bento4Execs p).map (fun e => "Bento4-SDK-1-6-0-641.x86_64-unknown-linux/bin/" ++ e)⟩,
    megaOc := fun _ _ => ⟨true, true, true⟩ }

/-- An environment where only the ffmpeg cell of (windows, x64) and the
megatools cell of (linux, arm64) succeed; every other fetch fails and every
bento4 zip open raises. -/
def envW : Env :=
  { ffmpegOc := fun p a _ => if p = "windows" ∧ a = "x64" then ⟨true, true⟩ else ⟨false, false⟩,
    bento4Oc := fun _ _ => ⟨true, []⟩,
    megaOc := fun p a =>
      if p = "linux" ∧ a = "arm64" then ⟨true, true, true⟩ else ⟨false, false, false⟩ }

/-! ### Manifest call sequences (for the schema and consistency claims)

_add_path is the only mutator of the manifest.  Every call site passes a
platform and arch of the fixed matrix and one of the three literal tool names
(src/script.py lines 108, 166, 226). -/

/-- One _add_path call. -/
structure Call where
  platform : String
  arch : String
  tool : String
  binary : String

/-- Replay a sequence of _add_path calls on a manifest. -/
def applyCalls (calls : List Call) (m : Manifest) : Manifest :=
  calls.foldl (fun acc c => addPath acc c.platform c.arch c.tool c.binary) m

/-- The platform names of the fixed matrix. -/
def platformNames : List String := ["windows", "darwin", "linux"]

/-- The architecture names of the fixed matrix. -/
def archNames : List String := ["x64", "arm64"]

/-- The three tool name literals passed to _add_path. -/
def toolNames : List String := ["ffmpeg", "bento4", "megatools"]

/-- An _add_path call with components the program can actually pass. -/
abbrev ValidCall (c : Call) : Prop :=
  c.platform ∈ platformNames ∧ c.arch ∈ archNames ∧ c.tool ∈ toolNames

/-- Shape of one manifest entry: the key is a composite of a valid platform,
arch and tool, and every stored value is a relative path built from the same
three components. -/
def ShapedEntry (kv : String × List String) : Prop :=
  ∃ p a t, p ∈ platformNames ∧ a ∈ archNames ∧ t ∈ toolNames ∧
    kv.1 = mkKey p a t ∧ ∀ v ∈ kv.2, ∃ b, v = mkRel p a t b

/-- Shape invariant of the whole manifest. -/
def Shaped (m : Manifest) : Prop :=
  ∀ kv ∈ m, ShapedEntry kv

/-! ### Directory layout creation, src/script.py lines 37-42

Directories are modelled as lists of path components; mkdir(parents=True,
exist_ok=True) creates every missing ancestor in order and never fails on an
existing directory.  The environment says which individual mkdir system calls
fail (permission denied and the like). -/

/-- Which raw mkdir calls fail. -/
structure MkdirEnv where
  fails : List String → Bool

/-- One raw mkdir with exist_ok semantics: an existing directory is left
untouched, a failing creation raises, otherwise the directory is appended. -/
def mkdirOne (env : MkdirEnv) (dirs : List (List String)) (p : List String) :
    Except String (List (List String)) :=
  if p ∈ dirs then Except.ok dirs
  else if env.fails p then Except.error ("mkdir failed: " ++ String.intercalate "/" p)
  else Except.ok (dirs ++ [p])

/-- The chain of directories mkdir(parents=True) creates for a path: every
nonempty initial segment, shortest first. -/
def dirChain (p : List String) : List (List String) :=
  (List.range p.length).map (fun i => p.take (i + 1))

/-- Run a sequence of raw mkdir calls, stopping at the first failure. -/
def mkdirSeq (env : MkdirEnv) (dirs : List (List String)) (ps : List (List String)) :
    Except String (List (List String)) :=
  ps.foldlM (mkdirOne env) dirs

/-- mkdir(parents=True, exist_ok=True) for one path. -/
def mkdirParents (env : MkdirEnv) (dirs : List (List String)) (p : List String) :
    Except String (List (List String)) :=
  mkdirSeq env dirs (dirChain p)

/-- The fifteen tool directories _create_directories makes, in program order
(src/script.py lines 38-42, with base_path ./binaries from line 21). -/
def layoutPaths : List (List String) :=
  matrixCells.foldl (fun acc pr =>
    acc ++ [["binaries", pr.1, pr.2, "ffmpeg"],
            ["binaries", pr.1, pr.2, "bento4"],
            ["binaries", pr.1, pr.2, "megatools"]]) []

/-- mkdir(parents=True, exist_ok=True) for each path of a list in order. -/
def mkdirAll (env : MkdirEnv) (dirs : List (List String)) (ps : List (List String)) :
    Except String (List (List String)) :=
  ps.foldlM (fun d p => mkdirParents env d p) dirs

/-- The method _create_directories, src/script.py lines 37-42. -/
def createDirectories (env : MkdirEnv) (dirs : List (List String)) :
    Except String (List (List String)) :=
  mkdirAll env dirs layoutPaths

/-- An mkdir environment where no raw mkdir fails. -/
def envNoFail : MkdirEnv := ⟨fun _ => false⟩

/-- The directories _create_directories creates from an empty filesystem, in
creation order. -/
def layoutDirsFull : List (List String) :=
  [["binaries"],
   ["binaries", "windows"], ["binaries", "windows", "x64"],
   ["binaries", "windows", "x64", "ffmpeg"], ["binaries", "windows", "x64", "bento4"],
   ["binaries", "windows", "x64", "megatools"],
   ["binaries", "darwin"], ["binaries", "darwin", "x64"],
   ["binaries", "darwin", "x64", "ffmpeg"], ["binaries", "darwin", "x64", "bento4"],
   ["binaries", "darwin", "x64", "megatools"],
   ["binaries", "darwin", "arm64"],
   ["binaries", "darwin", "arm64", "ffmpeg"], ["binaries", "darwin", "arm64", "bento4"],
   ["binaries", "darwin", "arm64", "megatools"],
   ["binaries", "linux"], ["binaries", "linux", "x64"],
   ["binaries", "linux", "x64", "ffmpeg"], ["binaries", "linux", "x64", "bento4"],
   ["binaries", "linux", "x64", "megatools"],
   ["binaries", "linux", "arm64"],
   ["binaries", "linux", "arm64", "ffmpeg"], ["binaries", "linux", "arm64", "bento4"],
   ["binaries", "linux", "arm64", "megatools"]]

/-- The entry point, src/script.py lines 255-257: the constructor runs
_create_directories before run() starts, so an uncaught directory creation
error aborts the process before any download. -/
def mainRun (menv : MkdirEnv) (env : Env) : Except String RunState :=
  match createDirectories menv [] with
  | Except.error e => Except.error e
  | Except.ok _ => Except.ok (run env)

/-! ### Filesystem level model of the ffmpeg gzip variant, src/script.py
lines 89-111

The run level model above tracks the manifest only; this finer model of the
same lines also tracks the files, the file modes set by os.chmod, and the
trace of chmod calls, which the gzip variant claims are about. -/

/-- A small filesystem: existing file paths, the modes set by chmod, and the
chronological trace of chmod calls. -/
structure FS where
  files : List String
  modes : List (String × Nat)
  chmods : List (String × Nat)

/-- Create or truncate a file (open for writing). -/
def fsCreate (fs : FS) (path : String) : FS :=
  { fs with files := if path ∈ fs.files then fs.files else fs.files ++ [path] }

/-- Path.unlink. -/
def fsUnlink (fs : FS) (path : String) : FS :=
  { fs with files := fs.files.filter (fun q => q ≠ path) }

/-- os.chmod. -/
def fsChmod (fs : FS) (path : String) (mode : Nat) : FS :=
  { fs with modes := alistSet fs.modes path mode, chmods := fs.chmods ++ [(path, mode)] }

/-- The ffmpeg target directory of a cell, src/script.py line 86. -/
def ffmpegTargetDir (platform arch : String) : String :=
  "binaries/" ++ platform ++ "/" ++ arch ++ "/ffmpeg"

/-- The work for one ffmpeg executable in one cell at filesystem granularity,
src/script.py lines 89-111: download the gz file, decompress it to the final
path, unlink the gz source, chmod 0o755 unless the platform is windows, then
record the path.  downloadOk and extractOk play the same role as in
FfmpegOutcome; on a failed extraction the gz file is left behind and nothing
is recorded. -/
def ffmpegExtractFS (platform arch executable platformStr : String)
    (downloadOk extractOk : Bool) (fs : FS) (m : Manifest) : FS × Manifest × Nat :=
  let targetDir := ffmpegTargetDir platform arch
  let gzPath := targetDir ++ "/" ++ executable ++ "-" ++ platformStr ++ ".gz"
  let finalName := executable ++ ffmpegExt platform
  let finalPath := targetDir ++ "/" ++ finalName
  if downloadOk then
    let fs1 := fsCreate fs gzPath
    if extractOk then
      let fs2 := fsCreate fs1 finalPath
      let fs3 := fsUnlink fs2 gzPath
      let fs4 := if platform = "windows" then fs3 else fsChmod fs3 finalPath 0o755
      (fs4, addPath m platform arch "ffmpeg" finalName, 1)
    else (fs1, m, 0)
  else (fs, m, 0)

/-! ### Association list and _add_path lemmas -/

theorem alistLookup_set_self {α : Type} (l : List (String × α)) (k : String) (v : α) :
    alistLookup (alistSet l k v) k = some v := by
  induction l with
  | nil => simp [alistSet, alistLookup]
  | cons hd tl ih =>
    obtain ⟨k1, w⟩ := hd
    by_cases h : k1 = k
    · simp [alistSet, alistLookup, h]
    · simp [alistSet, alistLookup, h, ih]

theorem alistLookup_set_ne {α : Type} (l : List (String × α)) (k k2 : String) (v : α)
    (h : k2 ≠ k) : alistLookup (alistSet l k v) k2 = alistLookup l k2 := by
  induction l with
  | nil => simp [alistSet, alistLookup, Ne.symm h]
  | cons hd tl ih =>
    obtain ⟨k1, w⟩ := hd
    by_cases h1 : k1 = k
    · subst h1
      simp [alistSet, alistLookup, Ne.symm h]
    · simp [alistSet, alistLookup, h1, ih]

theorem alistLookup_mem {α : Type} (l : List (String × α)) (k : String) (v : α)
    (h : alistLookup l k = some v) : (k, v) ∈ l := by
  induction l with
  | nil => simp [alistLookup] at h
  | cons hd tl ih =>
    obtain ⟨k1, w⟩ := hd
    by_cases h1 : k1 = k
    · subst h1
      simp [alistLookup] at h
      subst h
      exact List.mem_cons_self _ _
    · simp [alistLookup, h1] at h
      exact List.mem_cons_of_mem _ (ih h)

theorem lookup_addPath_same (m : Manifest) (p a t b : String) :
    alistLookup (addPath m p a t b) (mkKey p a t)
      = some (if mkRel p a t b ∈ (alistLookup m (mkKey p a t)).getD []
              then (alistLookup m (mkKey p a t)).getD []
              else (alistLookup m (mkKey p a t)).getD [] ++ [mkRel p a t b]) := by
  unfold addPath
  cases h : alistLookup m (mkKey p a t) with
  | none =>
    simp [h, alistLookup_set_self]
  | some l =>
    simp only [h, Option.isSome_some, if_true, Option.getD_some]
    by_cases hm : mkRel p a t b ∈ l
    · simp [hm, h]
    · simp [hm, alistLookup_set_self]

theorem lookup_addPath_other (m : Manifest) (p a t b k : String) (h : k ≠ mkKey p a t) :
    alistLookup (addPath m p a t b) k = alistLookup m k := by
  unfold addPath
  cases h1 : alistLookup m (mkKey p a t) with
  | none =>
    simp only [h1, Option.isSome_none, Bool.false_eq_true, if_false,
      alistLookup_set_self, Option.getD_some, List.not_mem_nil, List.nil_append]
    rw [alistLookup_set_ne _ _ _ _ h, alistLookup_set_ne _ _ _ _ h]
  | some l =>
    simp only [h1, Option.isSome_some, if_true, Option.getD_some]
    by_cases hm : mkRel p a t b ∈ l
    · simp [hm]
    · simp only [hm, if_false]
      rw [alistLookup_set_ne _ _ _ _ h]

theorem mem_getPaths_addPath_self (m : Manifest) (p a t b : String) :
    mkRel p a t b ∈ getPaths (addPath m p a t b) (mkKey p a t) := by
  rw [getPaths, lookup_addPath_same, Option.getD_some]
  by_cases hm : mkRel p a t b ∈ (alistLookup m (mkKey p a t)).getD []
  · rw [if_pos hm]; exact hm
  · rw [if_neg hm]
    exact List.mem_append_right _ (by simp)

theorem getPaths_addPath_mono (m : Manifest) (p a t b k v : String)
    (h : v ∈ getPaths m k) : v ∈ getPaths (addPath m p a t b) k := by
  by_cases hk : k = mkKey p a t
  · subst hk
    rw [getPaths, lookup_addPath_same, Option.getD_some]
    rw [getPaths] at h
    split
    · exact h
    · exact List.mem_append_left _ h
  · rw [getPaths, lookup_addPath_other m p a t b k hk]
    exact h

theorem addPath_noop (m : Manifest) (p a t b : String) (l : List String)
    (h1 : alistLookup m (mkKey p a t) = some l) (h2 : mkRel p a t b ∈ l) :
    addPath m p a t b = m := by
  unfold addPath
  simp [h1, h2]

theorem addPath_idem (m : Manifest) (p a t b : String) :
    addPath (addPath m p a t b) p a t b = addPath m p a t b := by
  have hs := lookup_addPath_same m p a t b
  have hmem := mem_getPaths_addPath_self m p a t b
  rw [getPaths, hs, Option.getD_some] at hmem
  exact addPath_noop _ p a t b _ hs hmem

/-! ### Claim theorems: manifest record (C2), fetcher (C3, C9), resolvers (C10) -/

/-- C2: _add_path is idempotent by relative path: a second call with the same
(platform, architecture, tool, path) arguments is a no-op on the manifest, and
after recording twice from the empty manifest the list at the composite key
holds the relative path exactly once. -/
theorem record_idempotent : ∀ (platform arch tool binary : String) (m : Manifest),
    addPath (addPath m platform arch tool binary) platform arch tool binary
      = addPath m platform arch tool binary
    ∧ (getPaths (addPath (addPath [] platform arch tool binary) platform arch tool binary)
        (mkKey platform arch tool)).count (mkRel platform arch tool binary) = 1 := by
  intro p a t b m
  refine ⟨addPath_idem m p a t b, ?_⟩
  rw [addPath_idem, getPaths, lookup_addPath_same, Option.getD_some]
  simp [alistLookup]

/-- C3 counterexample: a 304 response is not a 2xx status, yet _download
returns True for it, because raise_for_status of the requests library raises
only for the 4xx and 5xx ranges.  The claim that every non-2xx status yields
False is therefore wrong on the code. -/
theorem fetch_304_returns_true :
    (dlDownload "http://host/file.zip" ⟨some 304, true⟩).ok = true
    ∧ ¬(200 ≤ 304 ∧ 304 < 300) := by decide

/-- C3 amended: _download is total and always returns a boolean; it returns
True exactly when the get call produced a response whose status is outside
the 4xx and 5xx error ranges and the destination was written without error
(so also for non-2xx statuses such as 304), and every False comes with
exactly one printed diagnostic line. -/
theorem fetch_boolean_result : ∀ (url : String) (w : DlWorld),
    (dlDownload url w).ok = dlSpecOk w
    ∧ (dlDownload url w).diags.length = (if (dlDownload url w).ok then 0 else 1) := by
  intro url w
  obtain ⟨g, wOk⟩ := w
  cases g with
  | none => simp [dlDownload, dlSpecOk]
  | some s =>
    by_cases h : 400 ≤ s ∧ s < 600
    · simp [dlDownload, dlSpecOk, raiseForStatus, h]
    · cases wOk <;> simp [dlDownload, dlSpecOk, raiseForStatus, h]

/-- C9 counterexample: on a 304 response (a non-2xx status) the destination
file is opened and truncated, because raise_for_status raises only for 4xx
and 5xx; the claim that a non-2xx response never creates or modifies the
destination is therefore wrong on the code. -/
theorem fetch_304_opens_destination :
    (dlDownload "http://host/file.zip" ⟨some 304, true⟩).destOpened = true
    ∧ ¬(200 ≤ 304 ∧ 304 < 300) := by decide

/-- C9 amended: the status check happens before the destination file is
opened, and the destination is opened exactly when a response came back whose
status is outside the 4xx and 5xx error ranges; so on an error status the
destination is never created or modified, and partly written files arise only
from failures after a status that passed the check. -/
theorem destination_opened_iff_status_ok : ∀ (url : String) (w : DlWorld),
    (dlDownload url w).destOpened = dlSpecOpened w := by
  intro url w
  obtain ⟨g, wOk⟩ := w
  cases g with
  | none => simp [dlDownload, dlSpecOpened]
  | some s =>
    by_cases h : 400 ≤ s ∧ s < 600
    · simp [dlDownload, dlSpecOpened, raiseForStatus, h]
    · cases wOk <;> simp [dlDownload, dlSpecOpened, raiseForStatus, h]

/-- C10: the bento4 resolver gives the identical x86_64-unknown-linux archive
URL for (linux, x64) and (linux, arm64), and the megatools resolver maps both
darwin architectures to Linux build URLs, so no darwin-native megatools
artifact is ever fetched. -/
theorem nonnative_artifact_urls :
    bento4Url "linux" "x64" = bento4Url "linux" "arm64"
    ∧ bento4Url "linux" "x64"
        = some "https://www.bok.net/Bento4/binaries/Bento4-SDK-1-6-0-641.x86_64-unknown-linux.zip"
    ∧ megaUrl "darwin" "x64"
        = some "https://megatools.megous.com/builds/builds/megatools-1.11.3.20250401-linux-x86_64.tar.gz"
    ∧ megaUrl "darwin" "arm64"
        = some "https://megatools.megous.com/builds/builds/megatools-1.11.3.20250401-linux-aarch64.tar.gz" := by
  decide

/-! ### Generic fold lemmas -/

theorem foldl_pres {α σ : Type} (P : σ → Prop) (f : σ → α → σ)
    (hstep : ∀ s x, P s → P (f s x)) :
    ∀ (l : List α) (s : σ), P s → P (l.foldl f s) := by
  intro l
  induction l with
  | nil => intro s hs; simpa using hs
  | cons hd tl ih =>
    intro s hs
    simp only [List.foldl_cons]
    exact ih (f s hd) (hstep s hd hs)

theorem foldl_ensures {α σ : Type} (P : σ → Prop) (f : σ → α → σ)
    (hstep : ∀ s x, P s → P (f s x)) (x : α) (hx : ∀ s, P (f s x)) :
    ∀ (l : List α) (s : σ), x ∈ l → P (l.foldl f s) := by
  intro l
  induction l with
  | nil => intro s h; exact absurd h (List.not_mem_nil x)
  | cons hd tl ih =>
    intro s h
    simp only [List.foldl_cons]
    rcases List.mem_cons.mp h with h1 | h1
    · subst h1
      exact foldl_pres P f hstep tl (f s x) (hx s)
    · exact ih (f s hd) h1

/-! ### Bento4 zip extraction lemmas -/

theorem foldl_count_step (p a e : String) :
    ∀ (l : List String) (acc : Manifest × Nat),
      (l.foldl (fun acc2 exe =>
        if strEndsWith e exe then (addPath acc2.1 p a "bento4" exe, acc2.2 + 1) else acc2) acc).2
        = acc.2 + (l.filter (fun x => strEndsWith e x)).length := by
  intro l
  induction l with
  | nil => intro acc; simp
  | cons hd tl ih =>
    intro acc
    simp only [List.foldl_cons, List.filter_cons]
    by_cases h : strEndsWith e hd = true
    · rw [if_pos h, ih]
      simp [h]
      omega
    · rw [if_neg h, ih]
      simp [h]

theorem bento4EntryStep_count (p a : String) (acc : Manifest × Nat) (e : String) :
    (bento4EntryStep p a acc e).2
      = acc.2 + ((bento4Execs p).filter (fun x => strEndsWith e x)).length := by
  unfold bento4EntryStep
  exact foldl_count_step p a e (bento4Execs p) acc

theorem bento4_entries_count (p a : String) :
    ∀ (entries : List String) (acc : Manifest × Nat),
      (entries.foldl (bento4EntryStep p a) acc).2 = acc.2 + specZipMatchCount p entries := by
  intro entries
  induction entries with
  | nil => intro acc; simp [specZipMatchCount]
  | cons e tl ih =>
    intro acc
    simp only [List.foldl_cons]
    rw [ih, bento4EntryStep_count]
    simp [specZipMatchCount]
    omega

/-! ### Claim theorems: bento4 zip variant (C1) -/

/-- C1 counterexample: an archive with five entries all ending in mp4info
drives the success counter to 5 and the summary line to 5/4, although the
tool has only four expected executable names; the code extracts every
matching entry, not just the first one per name, so the reported success
count can exceed the number of expected names. -/
theorem bento4_zip_count_counterexample :
    (bento4Cell ⟨true, ["a/mp4info", "b/mp4info", "c/mp4info", "d/mp4info", "e/mp4info"]⟩
        "linux" "x64" []).2.1 = 5
    ∧ (bento4Execs "linux").length = 4
    ∧ (bento4Cell ⟨true, ["a/mp4info", "b/mp4info", "c/mp4info", "d/mp4info", "e/mp4info"]⟩
        "linux" "x64" []).2.2 = "5/4" := by decide

/-- C1 amended: for every zip entry, every expected executable name the entry
path ends with is extracted and installed, so the reported success count
equals the number of matching (entry, name) pairs and can exceed 4 when
several entries match the same name; an archive containing exactly one entry
for each of 3 of the 4 expected bento4 names yields exactly 3 installed
executables, reports 3/4, and leaves the manifest with exactly those 3
paths. -/
theorem bento4_zip_every_match_counted :
    (∀ (p a : String) (entries : List String) (m : Manifest),
      (dict2Get bento4Config p a).isSome = true →
      (bento4Cell ⟨true, entries⟩ p a m).2.1 = specZipMatchCount p entries)
    ∧ bento4Cell ⟨true, ["Bento4-SDK-1-6-0-641.x86_64-unknown-linux/bin/mp4decrypt",
        "Bento4-SDK-1-6-0-641.x86_64-unknown-linux/bin/mp4encrypt",
        "Bento4-SDK-1-6-0-641.x86_64-unknown-linux/bin/mp4info"]⟩ "linux" "x64" []
      = ([("linux_x64_bento4",
           ["linux/x64/bento4/mp4decrypt", "linux/x64/bento4/mp4encrypt",
            "linux/x64/bento4/mp4info"])],
         3, "3/4") := by
  constructor
  · intro p a entries m hs
    unfold bento4Cell
    cases hdg : dict2Get bento4Config p a with
    | none => rw [hdg] at hs; simp at hs
    | some ps =>
      simp [bento4_entries_count]
  · decide

/-- C1 witness: the amended count equation at a concrete cell and archive. -/
theorem bento4_zip_every_match_counted_witness :
    (bento4Cell ⟨true, ["x/mp4dump"]⟩ "darwin" "arm64" []).2.1
      = specZipMatchCount "darwin" ["x/mp4dump"] :=
  bento4_zip_every_match_counted.1 "darwin" "arm64" ["x/mp4dump"] [] (by decide)

/-! ### Monotonicity and progress lemmas for the run model -/

theorem bento4EntryStep_mono (p a entry k v : String) (acc : Manifest × Nat)
    (h : v ∈ getPaths acc.1 k) : v ∈ getPaths (bento4EntryStep p a acc entry).1 k := by
  unfold bento4EntryStep
  refine foldl_pres (fun ac => v ∈ getPaths ac.1 k) _ ?_ (bento4Execs p) acc h
  intro s x hs
  dsimp only
  split
  · exact getPaths_addPath_mono _ _ _ _ _ _ _ hs
  · exact hs

theorem ffmpegCell_mono (oc : String → FfmpegOutcome) (p a k v : String) (m : Manifest)
    (h : v ∈ getPaths m k) : v ∈ getPaths (ffmpegCell oc p a m).1 k := by
  unfold ffmpegCell
  cases hdg : dict2Get ffmpegMap p a with
  | none => exact h
  | some ps =>
    dsimp only
    refine foldl_pres (fun ac => v ∈ getPaths ac.1 k) _ ?_ _ (m, 0) h
    intro s x hs
    dsimp only
    split
    · exact getPaths_addPath_mono _ _ _ _ _ _ _ hs
    · exact hs

theorem bento4Cell_mono (o : Bento4Outcome) (p a k v : String) (m : Manifest)
    (h : v ∈ getPaths m k) : v ∈ getPaths (bento4Cell o p a m).1 k := by
  unfold bento4Cell
  cases hdg : dict2Get bento4Config p a with
  | none => exact h
  | some ps =>
    dsimp only
    split
    · exact foldl_pres (fun ac => v ∈ getPaths ac.1 k) _
        (fun s x hs => bento4EntryStep_mono p a x k v s hs) o.entries (m, 0) h
    · exact h

theorem megaCell_mono (o : MegaOutcome) (p a k v : String) (m : Manifest)
    (h : v ∈ getPaths m k) : v ∈ getPaths (megaCell o p a m).1 k := by
  unfold megaCell
  cases hdg : dict2Get megaConfig p a with
  | none => exact h
  | some c =>
    dsimp only
    split
    · split
      · exact getPaths_addPath_mono _ _ _ _ _ _ _ h
      · exact h
    · exact h

theorem runTool_mono (tool : String)
    (cell : String → String → Manifest → Manifest × Nat × String)
    (hc : ∀ p a m k2 v2, v2 ∈ getPaths m k2 → v2 ∈ getPaths (cell p a m).1 k2)
    (st : RunState) (k v : String) (h : v ∈ getPaths st.manifest k) :
    v ∈ getPaths (runTool tool cell st).manifest k := by
  unfold runTool
  refine foldl_pres (fun s => v ∈ getPaths s.manifest k) _ ?_ matrixCells st h
  intro s pr hs
  exact hc pr.1 pr.2 s.manifest k v hs

theorem runTool_ensures (tool : String)
    (cell : String → String → Manifest → Manifest × Nat × String)
    (hc : ∀ p a m k2 v2, v2 ∈ getPaths m k2 → v2 ∈ getPaths (cell p a m).1 k2)
    (p a : String) (hpa : (p, a) ∈ matrixCells) (k v : String)
    (hens : ∀ m, v ∈ getPaths (cell p a m).1 k) (st : RunState) :
    v ∈ getPaths (runTool tool cell st).manifest k := by
  unfold runTool
  refine foldl_ensures (fun s => v ∈ getPaths s.manifest k) _ ?_ (p, a) ?_ matrixCells st hpa
  · intro s pr hs
    exact hc pr.1 pr.2 s.manifest k v hs
  · intro s
    exact hens s.manifest

theorem ffmpegCell_ensures (oc : String → FfmpegOutcome) (p a exe : String)
    (hsome : (dict2Get ffmpegMap p a).isSome = true)
    (hexe : exe ∈ ["ffmpeg", "ffprobe"])
    (hdl : (oc exe).downloadOk = true) (hex : (oc exe).extractOk = true) (m : Manifest) :
    mkRel p a "ffmpeg" (exe ++ ffmpegExt p)
      ∈ getPaths (ffmpegCell oc p a m).1 (mkKey p a "ffmpeg") := by
  unfold ffmpegCell
  cases hdg : dict2Get ffmpegMap p a with
  | none => rw [hdg] at hsome; simp at hsome
  | some ps =>
    dsimp only
    refine foldl_ensures
      (fun ac => mkRel p a "ffmpeg" (exe ++ ffmpegExt p) ∈ getPaths ac.1 (mkKey p a "ffmpeg"))
      _ ?_ exe ?_ _ (m, 0) hexe
    · intro s x hs
      dsimp only
      split
      · exact getPaths_addPath_mono _ _ _ _ _ _ _ hs
      · exact hs
    · intro s
      dsimp only
      have hcond : ((oc exe).downloadOk && (oc exe).extractOk) = true := by rw [hdl, hex]; rfl
      rw [if_pos hcond]
      exact mem_getPaths_addPath_self _ _ _ _ _

theorem bento4Cell_ensures (o : Bento4Outcome) (p a exe entry : String)
    (hsome : (dict2Get bento4Config p a).isSome = true)
    (hdl : o.downloadOk = true) (hexe : exe ∈ bento4Execs p) (hent : entry ∈ o.entries)
    (hend : strEndsWith entry exe = true) (m : Manifest) :
    mkRel p a "bento4" exe ∈ getPaths (bento4Cell o p a m).1 (mkKey p a "bento4") := by
  unfold bento4Cell
  cases hdg : dict2Get bento4Config p a with
  | none => rw [hdg] at hsome; simp at hsome
  | some ps =>
    dsimp only
    rw [if_pos hdl]
    refine foldl_ensures
      (fun ac => mkRel p a "bento4" exe ∈ getPaths ac.1 (mkKey p a "bento4"))
      (bento4EntryStep p a) (fun s x hs => bento4EntryStep_mono p a x _ _ s hs)
      entry ?_ o.entries (m, 0) hent
    intro s
    unfold bento4EntryStep
    refine foldl_ensures
      (fun ac => mkRel p a "bento4" exe ∈ getPaths ac.1 (mkKey p a "bento4"))
      _ ?_ exe ?_ (bento4Execs p) s hexe
    · intro s2 x hs
      dsimp only
      split
      · exact getPaths_addPath_mono _ _ _ _ _ _ _ hs
      · exact hs
    · intro s2
      dsimp only
      rw [if_pos hend]
      exact mem_getPaths_addPath_self _ _ _ _ _

theorem megaCell_ensures (o : MegaOutcome) (p a : String) (c : String × String × String)
    (hdg : dict2Get megaConfig p a = some c) (hdl : o.downloadOk = true)
    (hex : o.extractOk = true) (hf : o.found = true) (m : Manifest) :
    mkRel p a "megatools" c.2.2 ∈ getPaths (megaCell o p a m).1 (mkKey p a "megatools") := by
  unfold megaCell
  rw [hdg]
  dsimp only
  have hcond : (o.extractOk && o.found) = true := by rw [hex, hf]; rfl
  rw [if_pos hdl, if_pos hcond]
  exact mem_getPaths_addPath_self _ _ _ _ _

theorem ffmpegMap_total : ∀ pr ∈ matrixCells, (dict2Get ffmpegMap pr.1 pr.2).isSome = true := by
  decide

theorem bento4Config_total : ∀ pr ∈ matrixCells,
    (dict2Get bento4Config pr.1 pr.2).isSome = true := by decide

/-! ### Claim theorems: no abort, all cells attempted (C4) -/

/-- C4: no per-cell failure aborts the run.  Whatever the fetch and extraction
outcomes are, the run visits all five matrix cells of all three tools in
order; and a (tool, target) unit whose own fetch and extraction succeed gets
its relative path into the final manifest no matter what happens in every
other cell (shown for the ffmpeg, bento4 and megatools variants). -/
theorem run_attempts_all_cells_and_keeps_installs (env : Env) :
    (run env).attempted = attemptedAll
    ∧ (∀ p a exe, (p, a) ∈ matrixCells → exe ∈ ["ffmpeg", "ffprobe"] →
        (env.ffmpegOc p a exe).downloadOk = true → (env.ffmpegOc p a exe).extractOk = true →
        mkRel p a "ffmpeg" (exe ++ ffmpegExt p) ∈ getPaths (run env).manifest (mkKey p a "ffmpeg"))
    ∧ (∀ p a exe entry, (p, a) ∈ matrixCells → (env.bento4Oc p a).downloadOk = true →
        exe ∈ bento4Execs p → entry ∈ (env.bento4Oc p a).entries →
        strEndsWith entry exe = true →
        mkRel p a "bento4" exe ∈ getPaths (run env).manifest (mkKey p a "bento4"))
    ∧ (∀ p a c, (p, a) ∈ matrixCells → dict2Get megaConfig p a = some c →
        (env.megaOc p a).downloadOk = true → (env.megaOc p a).extractOk = true →
        (env.megaOc p a).found = true →
        mkRel p a "megatools" c.2.2 ∈ getPaths (run env).manifest (mkKey p a "megatools")) := by
  refine ⟨rfl, ?_, ?_, ?_⟩
  · intro p a exe hpa hexe hdl hex
    simp only [run]
    apply runTool_mono "megatools" (fun p2 a2 => megaCell (env.megaOc p2 a2) p2 a2)
      (fun p2 a2 m2 k2 v2 h2 => megaCell_mono (env.megaOc p2 a2) p2 a2 k2 v2 m2 h2)
    apply runTool_mono "bento4" (fun p2 a2 => bento4Cell (env.bento4Oc p2 a2) p2 a2)
      (fun p2 a2 m2 k2 v2 h2 => bento4Cell_mono (env.bento4Oc p2 a2) p2 a2 k2 v2 m2 h2)
    exact runTool_ensures "ffmpeg" (fun p2 a2 => ffmpegCell (env.ffmpegOc p2 a2) p2 a2)
      (fun p2 a2 m2 k2 v2 h2 => ffmpegCell_mono (env.ffmpegOc p2 a2) p2 a2 k2 v2 m2 h2) p a hpa _ _
      (fun m => ffmpegCell_ensures (env.ffmpegOc p a) p a exe
        (ffmpegMap_total (p, a) hpa) hexe hdl hex m) initState
  · intro p a exe entry hpa hdl hexe hent hend
    simp only [run]
    apply runTool_mono "megatools" (fun p2 a2 => megaCell (env.megaOc p2 a2) p2 a2)
      (fun p2 a2 m2 k2 v2 h2 => megaCell_mono (env.megaOc p2 a2) p2 a2 k2 v2 m2 h2)
    exact runTool_ensures "bento4" (fun p2 a2 => bento4Cell (env.bento4Oc p2 a2) p2 a2)
      (fun p2 a2 m2 k2 v2 h2 => bento4Cell_mono (env.bento4Oc p2 a2) p2 a2 k2 v2 m2 h2) p a hpa _ _
      (fun m => bento4Cell_ensures (env.bento4Oc p a) p a exe entry
        (bento4Config_total (p, a) hpa) hdl hexe hent hend m) _
  · intro p a c hpa hdg hdl hex hf
    simp only [run]
    exact runTool_ensures "megatools" (fun p2 a2 => megaCell (env.megaOc p2 a2) p2 a2)
      (fun p2 a2 m2 k2 v2 h2 => megaCell_mono (env.megaOc p2 a2) p2 a2 k2 v2 m2 h2) p a hpa _ _
      (fun m => megaCell_ensures (env.megaOc p a) p a c hdg hdl hex hf m) _

/-- C4 witness: in an environment where only the (windows, x64) ffmpeg cell
and the (linux, arm64) megatools cell succeed, the run still visits all
fifteen cells and both installed binaries appear in the final manifest. -/
theorem run_attempts_all_cells_and_keeps_installs_witness :
    (run envW).attempted = attemptedAll
    ∧ mkRel "windows" "x64" "ffmpeg" ("ffmpeg" ++ ffmpegExt "windows")
        ∈ getPaths (run envW).manifest (mkKey "windows" "x64" "ffmpeg")
    ∧ mkRel "linux" "arm64" "megatools" "megatools"
        ∈ getPaths (run envW).manifest (mkKey "linux" "arm64" "megatools") := by
  refine ⟨(run_attempts_all_cells_and_keeps_installs envW).1, ?_, ?_⟩
  · exact (run_attempts_all_cells_and_keeps_installs envW).2.1 "windows" "x64" "ffmpeg"
      (by decide) (by decide) (by decide) (by decide)
  · exact (run_attempts_all_cells_and_keeps_installs envW).2.2.2 "linux" "arm64"
      ("linux-aarch64", ".tar.gz", "megatools")
      (by decide) (by decide) (by decide) (by decide) (by decide)

/-! ### Manifest shape lemmas (schema and key/path consistency) -/

theorem shaped_nil : Shaped ([] : Manifest) :=
  fun kv h => absurd h (List.not_mem_nil kv)

theorem mkKey_inj_valid : ∀ p ∈ platformNames, ∀ a ∈ archNames, ∀ t ∈ toolNames,
    ∀ p2 ∈ platformNames, ∀ a2 ∈ archNames, ∀ t2 ∈ toolNames,
    mkKey p a t = mkKey p2 a2 t2 → p = p2 ∧ a = a2 ∧ t = t2 := by decide

theorem alistSet_shaped (key : String) (v : List String) (hkv : ShapedEntry (key, v)) :
    ∀ (m : Manifest), Shaped m → Shaped (alistSet m key v) := by
  intro m
  induction m with
  | nil =>
    intro _ kv h
    simp only [alistSet, List.mem_singleton] at h
    subst h
    exact hkv
  | cons hd tl ih =>
    obtain ⟨k1, w⟩ := hd
    intro hm
    have htl : Shaped tl := fun kv h => hm kv (List.mem_cons_of_mem _ h)
    by_cases h1 : k1 = key
    · intro kv h
      simp only [alistSet, h1, if_true, List.mem_cons] at h
      rcases h with h | h
      · subst h; exact hkv
      · exact htl kv h
    · intro kv h
      simp only [alistSet, h1, if_false, List.mem_cons] at h
      rcases h with h | h
      · subst h; exact hm (k1, w) (List.mem_cons_self _ _)
      · exact ih htl kv h

theorem lookup_shapedEntry (m : Manifest) (k : String) (l : List String)
    (hm : Shaped m) (h : alistLookup m k = some l) : ShapedEntry (k, l) :=
  hm (k, l) (alistLookup_mem m k l h)

theorem addPath_shaped (m : Manifest) (p a t b : String)
    (hp : p ∈ platformNames) (ha : a ∈ archNames) (ht : t ∈ toolNames)
    (hm : Shaped m) : Shaped (addPath m p a t b) := by
  cases h : alistLookup m (mkKey p a t) with
  | none =>
    have h1 : addPath m p a t b
        = alistSet (alistSet m (mkKey p a t) []) (mkKey p a t) [mkRel p a t b] := by
      unfold addPath
      simp [h, alistLookup_set_self]
    rw [h1]
    refine alistSet_shaped _ _ ⟨p, a, t, hp, ha, ht, rfl, ?_⟩ _
      (alistSet_shaped _ _ ⟨p, a, t, hp, ha, ht, rfl, ?_⟩ _ hm)
    · intro v hv
      exact ⟨b, List.mem_singleton.mp hv⟩
    · intro v hv
      exact absurd hv (List.not_mem_nil v)
  | some l =>
    obtain ⟨p2, a2, t2, hp2, ha2, ht2, hkey, hvals⟩ := lookup_shapedEntry m _ l hm h
    obtain ⟨hpe, hae, hte⟩ :=
      mkKey_inj_valid p hp a ha t ht p2 hp2 a2 ha2 t2 ht2 hkey
    subst hpe; subst hae; subst hte
    by_cases hmem : mkRel p a t b ∈ l
    · rw [addPath_noop m p a t b l h hmem]
      exact hm
    · have h1 : addPath m p a t b = alistSet m (mkKey p a t) (l ++ [mkRel p a t b]) := by
        unfold addPath
        simp [h, hmem]
      rw [h1]
      refine alistSet_shaped _ _ ⟨p, a, t, hp, ha, ht, rfl, ?_⟩ _ hm
      intro v hv
      rcases List.mem_append.mp hv with hv | hv
      · exact hvals v hv
      · exact ⟨b, List.mem_singleton.mp hv⟩

theorem applyCalls_shaped : ∀ (calls : List Call) (m : Manifest),
    (∀ c ∈ calls, ValidCall c) → Shaped m → Shaped (applyCalls calls m) := by
  intro calls
  induction calls with
  | nil =>
    intro m _ hm
    simpa [applyCalls] using hm
  | cons c tl ih =>
    intro m hv hm
    obtain ⟨hp, ha, ht⟩ := hv c (List.mem_cons_self _ _)
    simp only [applyCalls, List.foldl_cons]
    exact ih (addPath m c.platform c.arch c.tool c.binary)
      (fun c2 h2 => hv c2 (List.mem_cons_of_mem _ h2))
      (addPath_shaped m _ _ _ _ hp ha ht hm)

/-! ### Claim theorems: manifest schema (C7) and key/path consistency (C8) -/

set_option maxRecDepth 4000 in
/-- C7: after any sequence of _add_path calls with components the program can
pass, every manifest entry has a key of the form platform_arch_tool and a
list of relative paths of the form platform/arch/tool/binary built from the
same components; and in a fully successful run the serialized manifest maps
windows_x64_ffmpeg to exactly the two expected windows relative paths. -/
theorem manifest_schema :
    (∀ calls : List Call, (∀ c ∈ calls, ValidCall c) → Shaped (applyCalls calls []))
    ∧ alistLookup (savePathsJson (run envAll)) "windows_x64_ffmpeg"
        = some ["windows/x64/ffmpeg/ffmpeg.exe", "windows/x64/ffmpeg/ffprobe.exe"] := by
  constructor
  · intro calls hv
    exact applyCalls_shaped calls [] hv shaped_nil
  · decide

/-- C7 witness: the shape invariant applied to a concrete call sequence. -/
theorem manifest_schema_witness :
    Shaped (applyCalls [⟨"linux", "x64", "bento4", "mp4info"⟩] []) :=
  manifest_schema.1 [⟨"linux", "x64", "bento4", "mp4info"⟩] (by decide)

/-- C8: key/path consistency.  After any sequence of _add_path calls with
components the program can pass, every path stored under a key of the form
platform_arch_tool is a relative path that starts with platform/arch/tool/
built from the same three components as the key. -/
theorem key_path_consistency : ∀ calls : List Call, (∀ c ∈ calls, ValidCall c) →
    ∀ kv ∈ applyCalls calls [], ∀ p a t, p ∈ platformNames → a ∈ archNames → t ∈ toolNames →
      kv.1 = mkKey p a t → ∀ v ∈ kv.2, ∃ b, v = mkRel p a t b := by
  intro calls hv kv hkv p a t hp ha ht hkey v hvv
  obtain ⟨p2, a2, t2, hp2, ha2, ht2, hkey2, hvals⟩ :=
    applyCalls_shaped calls [] hv shaped_nil kv hkv
  obtain ⟨hpe, hae, hte⟩ :=
    mkKey_inj_valid p2 hp2 a2 ha2 t2 ht2 p hp a ha t ht (hkey2.symm.trans hkey)
  subst hpe; subst hae; subst hte
  exact hvals v hvv

/-- C8 witness: the consistency statement at a concrete call sequence, key and
stored path. -/
theorem key_path_consistency_witness :
    ∃ b, "windows/x64/ffmpeg/ffmpeg.exe" = mkRel "windows" "x64" "ffmpeg" b :=
  key_path_consistency [⟨"windows", "x64", "ffmpeg", "ffmpeg.exe"⟩] (by decide)
    ("windows_x64_ffmpeg", ["windows/x64/ffmpeg/ffmpeg.exe"]) (by decide)
    "windows" "x64" "ffmpeg" (by decide) (by decide) (by decide) (by decide)
    "windows/x64/ffmpeg/ffmpeg.exe" (by decide)

/-! ### Directory creation lemmas -/

theorem exceptBind_ok {α β ε : Type} (x : α) (f : α → Except ε β) :
    (Except.ok x >>= f) = f x := rfl

theorem exceptBind_error {α β ε : Type} (e : ε) (f : α → Except ε β) :
    ((Except.error e : Except ε α) >>= f) = Except.error e := rfl

theorem mkdirOne_ok (env : MkdirEnv) (ds : List (List String)) (p : List String)
    (ds2 : List (List String)) (h : mkdirOne env ds p = Except.ok ds2) :
    (∀ q ∈ ds, q ∈ ds2) ∧ p ∈ ds2 := by
  unfold mkdirOne at h
  by_cases h1 : p ∈ ds
  · rw [if_pos h1] at h
    simp only [Except.ok.injEq] at h
    subst h
    exact ⟨fun q hq => hq, h1⟩
  · rw [if_neg h1] at h
    by_cases h2 : env.fails p = true
    · rw [if_pos h2] at h
      simp at h
    · rw [if_neg h2] at h
      simp only [Except.ok.injEq] at h
      subst h
      exact ⟨fun q hq => List.mem_append_left _ hq, List.mem_append_right _ (by simp)⟩

theorem mkdirOne_noop (env : MkdirEnv) (ds : List (List String)) (p : List String)
    (h : p ∈ ds) : mkdirOne env ds p = Except.ok ds := by
  unfold mkdirOne
  rw [if_pos h]

theorem mkdirSeq_ok (env : MkdirEnv) : ∀ (ps ds ds2 : List (List String)),
    mkdirSeq env ds ps = Except.ok ds2 → (∀ q ∈ ds, q ∈ ds2) ∧ (∀ q ∈ ps, q ∈ ds2) := by
  intro ps
  induction ps with
  | nil =>
    intro ds ds2 h
    have h2 : ds = ds2 := by simpa [mkdirSeq, pure, Except.pure] using h
    subst h2
    exact ⟨fun q hq => hq, fun q hq => absurd hq (List.not_mem_nil q)⟩
  | cons hd tl ih =>
    intro ds ds2 h
    simp only [mkdirSeq, List.foldlM_cons] at h
    cases h1 : mkdirOne env ds hd with
    | error e =>
      rw [h1, exceptBind_error] at h
      simp at h
    | ok ds1 =>
      rw [h1, exceptBind_ok] at h
      obtain ⟨hsub1, hhd⟩ := mkdirOne_ok env ds hd ds1 h1
      obtain ⟨hsub2, htl⟩ := ih ds1 ds2 h
      refine ⟨fun q hq => hsub2 q (hsub1 q hq), ?_⟩
      intro q hq
      rcases List.mem_cons.mp hq with hq | hq
      · subst hq
        exact hsub2 q hhd
      · exact htl q hq

theorem mkdirSeq_noop (env : MkdirEnv) : ∀ (ps ds : List (List String)),
    (∀ q ∈ ps, q ∈ ds) → mkdirSeq env ds ps = Except.ok ds := by
  intro ps
  induction ps with
  | nil => intro ds _; rfl
  | cons hd tl ih =>
    intro ds hall
    simp only [mkdirSeq, List.foldlM_cons]
    rw [mkdirOne_noop env ds hd (hall hd (List.mem_cons_self _ _)), exceptBind_ok]
    exact ih ds (fun q hq => hall q (List.mem_cons_of_mem _ hq))

theorem mkdirAll_ok (env : MkdirEnv) : ∀ (L : List (List String)) (ds ds2 : List (List String)),
    mkdirAll env ds L = Except.ok ds2 →
    (∀ q ∈ ds, q ∈ ds2) ∧ (∀ p ∈ L, ∀ q ∈ dirChain p, q ∈ ds2) := by
  intro L
  induction L with
  | nil =>
    intro ds ds2 h
    have h2 : ds = ds2 := by simpa [mkdirAll, pure, Except.pure] using h
    subst h2
    exact ⟨fun q hq => hq, fun p hp => absurd hp (List.not_mem_nil p)⟩
  | cons hd tl ih =>
    intro ds ds2 h
    simp only [mkdirAll, List.foldlM_cons] at h
    cases h1 : mkdirParents env ds hd with
    | error e =>
      rw [h1, exceptBind_error] at h
      simp at h
    | ok ds1 =>
      rw [h1, exceptBind_ok] at h
      obtain ⟨hsub1, hchain⟩ := mkdirSeq_ok env (dirChain hd) ds ds1 h1
      obtain ⟨hsub2, htl⟩ := ih ds1 ds2 h
      refine ⟨fun q hq => hsub2 q (hsub1 q hq), ?_⟩
      intro p hp q hq
      rcases List.mem_cons.mp hp with hp | hp
      · subst hp
        exact hsub2 q (hchain q hq)
      · exact htl p hp q hq

theorem mkdirAll_noop (env : MkdirEnv) : ∀ (L ds : List (List String)),
    (∀ p ∈ L, ∀ q ∈ dirChain p, q ∈ ds) → mkdirAll env ds L = Except.ok ds := by
  intro L
  induction L with
  | nil => intro ds _; rfl
  | cons hd tl ih =>
    intro ds hall
    simp only [mkdirAll, List.foldlM_cons]
    have h1 : mkdirParents env ds hd = Except.ok ds :=
      mkdirSeq_noop env (dirChain hd) ds (fun q hq => hall hd (List.mem_cons_self _ _) q hq)
    rw [h1, exceptBind_ok]
    exact ih ds (fun p hp q hq => hall p (List.mem_cons_of_mem _ hp) q hq)

/-! ### Claim theorems: layout creation (C5) and the gzip variant (C6) -/

/-- C5: from an empty filesystem _create_directories creates exactly the
directories of layoutDirsFull, so under every (platform, arch) of the matrix
exactly the three tool subdirectories exist, without duplicates; the creation
is idempotent (a second run over the created tree succeeds and changes
nothing, so pre-existing directories never cause an error); and when
directory creation fails the whole entry point aborts with that error before
any download is attempted. -/
theorem layout_creation_correct :
    createDirectories envNoFail [] = Except.ok layoutDirsFull
    ∧ (∀ pr ∈ matrixCells,
        layoutDirsFull.filter
            (fun d => (d.take 3 == ["binaries", pr.1, pr.2]) && (d.length == 4))
          = [["binaries", pr.1, pr.2, "ffmpeg"], ["binaries", pr.1, pr.2, "bento4"],
             ["binaries", pr.1, pr.2, "megatools"]])
    ∧ layoutDirsFull.Nodup
    ∧ (∀ (env : MkdirEnv) (ds ds2 : List (List String)),
        createDirectories env ds = Except.ok ds2 → createDirectories env ds2 = Except.ok ds2)
    ∧ (∀ (menv : MkdirEnv) (renv : Env) (e : String),
        createDirectories menv [] = Except.error e → mainRun menv renv = Except.error e) := by
  refine ⟨by rfl, by decide, by decide, ?_, ?_⟩
  · intro env ds ds2 h
    exact mkdirAll_noop env layoutPaths ds2 (mkdirAll_ok env layoutPaths ds ds2 h).2
  · intro menv renv e h
    unfold mainRun
    rw [h]

/-- C5 witness: running _create_directories again over the tree it created
succeeds and leaves the directory set unchanged. -/
theorem layout_creation_correct_witness :
    createDirectories envNoFail layoutDirsFull = Except.ok layoutDirsFull :=
  layout_creation_correct.2.2.2.1 envNoFail [] layoutDirsFull layout_creation_correct.1

/-- C6: on the success path of the ffmpeg gzip variant, the .gz source file
no longer exists afterwards; on non-windows platforms the output file gets
mode 0o755; on windows no chmod call is made; and the output filename ends in
.exe exactly when the platform is windows. -/
theorem gzip_variant_postconditions :
    ∀ (platform arch exe platformStr : String) (fs : FS) (m : Manifest),
      platform ∈ platformNames → exe ∈ ["ffmpeg", "ffprobe"] →
      ((ffmpegTargetDir platform arch ++ "/" ++ exe ++ "-" ++ platformStr ++ ".gz")
          ∉ (ffmpegExtractFS platform arch exe platformStr true true fs m).1.files)
      ∧ (platform ≠ "windows" →
          alistLookup (ffmpegExtractFS platform arch exe platformStr true true fs m).1.modes
              (ffmpegTargetDir platform arch ++ "/" ++ (exe ++ ffmpegExt platform)) = some 0o755)
      ∧ (platform = "windows" →
          (ffmpegExtractFS platform arch exe platformStr true true fs m).1.chmods = fs.chmods)
      ∧ (strEndsWith (exe ++ ffmpegExt platform) ".exe" = true ↔ platform = "windows") := by
  intro platform arch exe platformStr fs m hp hexe
  refine ⟨?_, ?_, ?_, ?_⟩
  · by_cases hw : platform = "windows" <;>
      simp [ffmpegExtractFS, fsCreate, fsUnlink, fsChmod, hw, List.mem_filter]
  · intro hnw
    simp [ffmpegExtractFS, fsCreate, fsUnlink, fsChmod, hnw, alistLookup_set_self]
  · intro hw
    simp [ffmpegExtractFS, fsCreate, fsUnlink, hw]
  · simp only [platformNames, List.mem_cons, List.not_mem_nil, or_false] at hp
    simp only [List.mem_cons, List.not_mem_nil, or_false] at hexe
    rcases hp with rfl | rfl | rfl <;> rcases hexe with rfl | rfl <;> decide

/-- C6 witness: the windows output filename carries the .exe suffix. -/
theorem gzip_variant_postconditions_witness :
    strEndsWith ("ffmpeg" ++ ffmpegExt "windows") ".exe" = true ↔ "windows" = "windows" :=
  (gzip_variant_postconditions "windows" "x64" "ffmpeg" "win32-x64" ⟨[], [], []⟩ []
    (by decide) (by decide)).2.2.2

end SCBinary
